import Mathlib

/-!
Shallow embedding of the uniog backend core: the client-side reward projector
(`calculateEstimatedRewards` from the farm page component) and the on-chain
`FarmFactory` / `EnhancedFixedAPYFarm` contracts.

Machine integers: Solidity `uint256` / ethers `BigNumber` values are modelled
as `Nat`; Solidity 0.8 reverts on overflow rather than wrapping, and a revert
is modelled as an `Except.error` that discards every pending state change, so
an aborted operation leaves the caller with the unchanged input state.
Addresses and `bytes32` identifiers are modelled as `Nat`, with `0` standing
for the null address / zero identifier.
-/

/-- `ethers.constants.WeiPerEther`, the fixed-point scale (`SCALE = 10^18`). -/
def WeiPerEther : Nat := 10 ^ 18

/-- Embedding of `calculateEstimatedRewards` (farm page component).

The five explicit parameters mirror the TypeScript signature
`(userStaked, rewardRatePerSecond, lastUpdateTimestamp, endTimestamp, baseRewardDebt)`.
`nowSeconds` is the value `Math.floor(Date.now() / 1000)` read inside the body,
and `farmStart` is the value
`farmData?.farmStartTime?.getTime() ? Math.floor(.../1000) : 0` read from the
enclosing component state (`0` when the component has no farm start time).
The `undefined` guards of the TypeScript code are outside the model: every
argument here is a present (defined) value, matching the guarded path. -/
def calculateEstimatedRewards
    (userStaked rewardRatePerSecond lastUpdateTimestamp endTimestamp
     baseRewardDebt nowSeconds farmStart : Nat) : Nat :=
  if userStaked = 0 then baseRewardDebt
  else
    let effectiveCurrentTimestamp :=
      if nowSeconds > endTimestamp then endTimestamp else nowSeconds
    let effectiveLastUpdate0 :=
      if lastUpdateTimestamp > effectiveCurrentTimestamp then effectiveCurrentTimestamp
      else lastUpdateTimestamp
    let effectiveLastUpdate :=
      if effectiveLastUpdate0 < farmStart then farmStart else effectiveLastUpdate0
    let accruedRewards :=
      if effectiveCurrentTimestamp > effectiveLastUpdate then
        userStaked * rewardRatePerSecond * (effectiveCurrentTimestamp - effectiveLastUpdate)
          / WeiPerEther
      else 0
    baseRewardDebt + accruedRewards

/-- Iterated projection along a list of refresh times: at each time `t` the
projector output becomes the new base (`rewardDebt`) and `t` the new
`lastUpdateTimestamp`, exactly as a chain of intermediate no-op refreshes. -/
def accrueAlong (s r endTs fs : Nat) : Nat → Nat → List Nat → Nat
  | _, base, [] => base
  | lu, base, t :: ts =>
      accrueAlong s r endTs fs t (calculateEstimatedRewards s r lu endTs base t fs) ts

/-- Revert reasons of `FarmFactory` (one constructor per `require` string) plus
the `Ownable` unauthorized-caller revert. -/
inductive FacRevert where
  | notOwner
  | invalidType
  | zeroAddress
  | alreadyRegistered
  | unregisteredFarmType
  | insufficientFee
  | initializationFailed
  deriving DecidableEq

/-- Storage of the `FarmFactory` contract. `balance` is the factory's own
native-token balance (msg.value received minus fees forwarded). -/
structure Factory where
  owner : Nat
  deploymentFee : Nat
  feeReceiver : Nat
  implementations : Nat → Nat
  deployedFarms : List Nat
  farmMetadataURI : Nat → String
  farmCreators : Nat → Nat
  balance : Nat

/-- `FarmFactory.registerFarmType` (operator-only). -/
def registerFarmType (st : Factory) (caller farmType implementation : Nat) :
    Except FacRevert Factory :=
  if caller ≠ st.owner then .error .notOwner
  else if farmType = 0 then .error .invalidType
  else if implementation = 0 then .error .zeroAddress
  else if st.implementations farmType ≠ 0 then .error .alreadyRegistered
  else .ok { st with
              implementations :=
                fun t => if t = farmType then implementation else st.implementations t }

/-- `FarmFactory.setDeploymentFee` (operator-only). -/
def setDeploymentFee (st : Factory) (caller fee receiver : Nat) :
    Except FacRevert Factory :=
  if caller ≠ st.owner then .error .notOwner
  else .ok { st with deploymentFee := fee, feeReceiver := receiver }

/-- `FarmFactory.deployFarm`. `freshAddr` models the address returned by
`impl.clone()` (chosen by the execution environment), and `initOk` models the
success flag of the forwarded `farm.call(initData)`. On success the result
carries the new state, the deployed farm address, and the amount of native
value forwarded to `feeReceiver` by `payable(feeReceiver).transfer(deploymentFee)`. -/
def deployFarm (st : Factory) (caller msgValue farmType : Nat) (metadataURI : String)
    (freshAddr : Nat) (initOk : Bool) : Except FacRevert (Factory × Nat × Nat) :=
  if st.implementations farmType = 0 then .error .unregisteredFarmType
  else if 0 < st.deploymentFee ∧ msgValue < st.deploymentFee then .error .insufficientFee
  else
    let paid := if 0 < st.deploymentFee ∧ st.feeReceiver ≠ 0 then st.deploymentFee else 0
    if initOk then
      .ok ({ st with
              balance := st.balance + msgValue - paid,
              deployedFarms := st.deployedFarms ++ [freshAddr],
              farmMetadataURI :=
                fun a => if a = freshAddr then metadataURI else st.farmMetadataURI a,
              farmCreators :=
                fun a => if a = freshAddr then caller else st.farmCreators a },
            freshAddr, paid)
    else .error .initializationFailed

/-- `FarmFactory.getFarmCount` (view). -/
def getFarmCount (st : Factory) : Nat :=
  st.deployedFarms.length

/-- `FarmFactory.getDeployedFarms` (view): the source loop writes
`farms[i - offset] = deployedFarms[i]` for `i ∈ [offset, end)`, rendered here
as a map over `List.range' offset (end - offset)`. -/
def getDeployedFarms (st : Factory) (offset limit : Nat) : List Nat :=
  let len := st.deployedFarms.length
  if offset ≥ len then []
  else
    let stop := if offset + limit > len then len else offset + limit
    (List.range' offset (stop - offset)).map (fun i => st.deployedFarms.getD i 0)

/-- `FarmFactory.isRegisteredFarmType` (view). -/
def isRegisteredFarmType (st : Factory) (farmType : Nat) : Bool :=
  st.implementations farmType != 0

/-- `FarmFactory.getFarmCreator` (view); Solidity mappings default to the
zero address on absent keys. -/
def getFarmCreator (st : Factory) (farm : Nat) : Nat :=
  st.farmCreators farm

/-- `FarmFactory.getMetadataURI` (view); Solidity mappings default to the
empty string on absent keys. -/
def getMetadataURI (st : Factory) (farm : Nat) : String :=
  st.farmMetadataURI farm

/-- One external call to the factory, with the environment-chosen data a call
needs (`freshAddr` for the clone address, `initOk` for the initializer call). -/
inductive Ev where
  | register (caller farmType implementation : Nat)
  | setFee (caller fee receiver : Nat)
  | deploy (caller msgValue farmType : Nat) (metadataURI : String)
      (freshAddr : Nat) (initOk : Bool)
  deriving DecidableEq

/-- Apply one call: a revert (`Except.error`) leaves the storage unchanged. -/
def applyEv (st : Factory) (e : Ev) : Factory :=
  match e with
  | .register c t i =>
      match registerFarmType st c t i with
      | .ok st₁ => st₁
      | .error _ => st
  | .setFee c f r =>
      match setDeploymentFee st c f r with
      | .ok st₁ => st₁
      | .error _ => st
  | .deploy c v t u fa ok =>
      match deployFarm st c v t u fa ok with
      | .ok (st₁, _, _) => st₁
      | .error _ => st

/-- Factory storage right after the constructor: empty mappings and list,
zero fee, deployer as `Ownable` owner. -/
def Factory.initial (deployer : Nat) : Factory :=
  { owner := deployer
    deploymentFee := 0
    feeReceiver := 0
    implementations := fun _ => 0
    deployedFarms := []
    farmMetadataURI := fun _ => ""
    farmCreators := fun _ => 0
    balance := 0 }

/-- The factory state reached from deployment by a trace of external calls. -/
def run (deployer : Nat) (tr : List Ev) : Factory :=
  tr.foldl applyEv (Factory.initial deployer)

/-- Revert reasons of `EnhancedFixedAPYFarm.initialize`
(one constructor per `require` string). -/
inductive FarmErr where
  | alreadyInitialized
  | zeroOwner
  | zeroAsset
  | sameAsset
  | zeroDuration
  | boostTooLow
  deriving DecidableEq

/-- Storage of one `EnhancedFixedAPYFarm` instance touched by `initialize`.
The contract keeps `startTime` only in a local variable; its value survives as
`lastUpdate` and as `endTimestamp - duration`. -/
structure Farm where
  initializedFlag : Bool
  owner : Nat
  stakeToken : Nat
  rewardToken : Nat
  duration : Nat
  lockDurationSeconds : Nat
  boostMultiplier : Nat
  lastUpdate : Nat
  endTimestamp : Nat
  deriving DecidableEq

/-- A clone fresh out of `impl.clone()`: all storage zeroed. -/
def Farm.blank : Farm :=
  { initializedFlag := false
    owner := 0
    stakeToken := 0
    rewardToken := 0
    duration := 0
    lockDurationSeconds := 0
    boostMultiplier := 0
    lastUpdate := 0
    endTimestamp := 0 }

/-- Modelled from the spec: the source file shows `initialize` only in
abbreviated form — the comment `// ... other checks ...` stands where the
asset-identifier checks live. The spec requires the two asset identifiers to
be non-null and distinct, so those two checks are reconstructed here from the
spec's words. -/
def assetChecks (stakeTokenAddr rewardTokenAddr : Nat) : Option FarmErr :=
  if stakeTokenAddr = 0 ∨ rewardTokenAddr = 0 then some .zeroAsset
  else if stakeTokenAddr = rewardTokenAddr then some .sameAsset
  else none

/-- `EnhancedFixedAPYFarm.initialize` (the decoded tuple is passed directly;
`now` is `block.timestamp`). Checks run in source order: one-shot guard,
owner, the elided asset checks (see `assetChecks`), duration, boost. -/
def initializeFarm (f : Farm) (now ownerAddr stakeTokenAddr rewardTokenAddr
    durationArg lockArg boostArg : Nat) : Except FarmErr Farm :=
  if f.initializedFlag then .error .alreadyInitialized
  else if ownerAddr = 0 then .error .zeroOwner
  else
    match assetChecks stakeTokenAddr rewardTokenAddr with
    | some e => .error e
    | none =>
      if durationArg = 0 then .error .zeroDuration
      else if boostArg < 100 then .error .boostTooLow
      else .ok
        { initializedFlag := true
          owner := ownerAddr
          stakeToken := stakeTokenAddr
          rewardToken := rewardTokenAddr
          duration := durationArg
          lockDurationSeconds := lockArg
          boostMultiplier := boostArg
          lastUpdate := now
          endTimestamp := now + durationArg }

/-- A small concrete factory state used by the witnesses: type `1` is
registered to implementation `7`, the deployment fee is `5` with receiver `9`. -/
def exSt : Factory :=
  { owner := 1
    deploymentFee := 5
    feeReceiver := 9
    implementations := fun t => if t = 1 then 7 else 0
    deployedFarms := []
    farmMetadataURI := fun _ => ""
    farmCreators := fun _ => 0
    balance := 0 }

/-- A concrete factory state with three deployed farms, for the slice witness. -/
def exSt6 : Factory :=
  { exSt with deployedFarms := [4, 5, 6] }

/-- A concrete call trace: one successful registration and one successful
deployment. -/
def exTrace : List Ev :=
  [Ev.register 5 1 7, Ev.deploy 8 0 1 "m" 42 true]

/-- The farm produced by a concrete successful `initialize` call at time
`1000` with owner `1`, assets `2`/`3`, duration `600`, no lock, boost `150`. -/
def exFarm : Farm :=
  { initializedFlag := true
    owner := 1
    stakeToken := 2
    rewardToken := 3
    duration := 600
    lockDurationSeconds := 0
    boostMultiplier := 150
    lastUpdate := 1000
    endTimestamp := 1600 }

lemma weiPerEther_pos : 0 < WeiPerEther := by
  simp [WeiPerEther]

/-- Closed form of the projector for a nonzero stake: the accrual window is
`[max (min lu (min n e)) fs, min n e]`, truncated subtraction absorbing the
empty-window case. -/
lemma calculateEstimatedRewards_eq (s r lu e b n fs : Nat) (hs : s ≠ 0) :
    calculateEstimatedRewards s r lu e b n fs
      = b + s * r * (min n e - max (min lu (min n e)) fs) / WeiPerEther := by
  simp only [calculateEstimatedRewards, if_neg hs]
  split <;> split <;> split <;> split <;>
    first
      | (refine congrArg (fun x => b + s * r * x / WeiPerEther) ?_; omega)
      | (rw [show min n e - max (min lu (min n e)) fs = 0 by omega]; simp)

/-- The projector never returns less than the base reward debt. -/
lemma calculateEstimatedRewards_base_le (s r lu e b n fs : Nat) :
    b ≤ calculateEstimatedRewards s r lu e b n fs := by
  unfold calculateEstimatedRewards
  split
  · exact Nat.le_refl b
  · exact Nat.le_add_right _ _

/-- One projection step is exact when `SCALE` divides `s * r`
(no farm-start clamp, ordered window inside the schedule). -/
lemma calculateEstimatedRewards_exact_step (k s r lu t e b : Nat)
    (hk : s * r = k * WeiPerEther) (hle : lu ≤ t) (hte : t ≤ e) :
    calculateEstimatedRewards s r lu e b t 0 = b + k * (t - lu) := by
  by_cases hs : s = 0
  · have hk0 : k = 0 := by
      have := hk
      rw [hs, Nat.zero_mul] at this
      have hw := weiPerEther_pos
      rcases Nat.mul_eq_zero.mp this.symm with h | h
      · exact h
      · omega
    simp [calculateEstimatedRewards, hs, hk0]
  · rw [calculateEstimatedRewards_eq s r lu e b t 0 hs, hk]
    have h1 : min t e = t := Nat.min_eq_left hte
    have h2 : max (min lu t) 0 = min lu t := Nat.max_eq_left (Nat.zero_le _)
    have h3 : min lu t = lu := Nat.min_eq_left hle
    rw [h1, h2, h3, show k * WeiPerEther * (t - lu) = k * (t - lu) * WeiPerEther by ring,
      Nat.mul_div_cancel _ weiPerEther_pos]

/-- Chained projection is exact when `SCALE` divides `s * r`: each step over an
ordered list of refresh times adds exactly `k` units per second. -/
lemma accrueAlong_exact (k s r e : Nat) (hk : s * r = k * WeiPerEther) :
    ∀ (ms : List Nat) (t1 lu b : Nat),
      List.Chain (fun a c => a ≤ c) lu (ms ++ [t1]) →
      (∀ m ∈ ms, m ≤ t1) → t1 ≤ e →
      accrueAlong s r e 0 lu b (ms ++ [t1]) = b + k * (t1 - lu) := by
  intro ms
  induction ms with
  | nil =>
    intro t1 lu b hch _ hte
    cases hch with
    | cons hlu _ =>
      simp only [List.nil_append, accrueAlong]
      exact calculateEstimatedRewards_exact_step k s r lu t1 e b hk hlu hte
  | cons m ms ih =>
    intro t1 lu b hch hms hte
    cases hch with
    | cons hlm hch₂ =>
      have hmt : m ≤ t1 := hms m (List.mem_cons_self m ms)
      simp only [List.cons_append, accrueAlong]
      rw [calculateEstimatedRewards_exact_step k s r lu m e b hk hlm (le_trans hmt hte)]
      refine Eq.trans (ih t1 m (b + k * (m - lu)) hch₂
        (fun x hx => hms x (List.mem_cons_of_mem m hx)) hte) ?_
      rw [Nat.add_assoc, ← Nat.mul_add]
      refine congrArg (fun x => b + k * x) ?_
      omega

/-- C1 (corrected): for a nonzero stake the projector returns
`alreadyAccrued + s * r * (effectiveNow - effectiveLastUpdate) / SCALE` with
`effectiveNow = min(nowWallClock, endTime)` but
`effectiveLastUpdate = max(min(lastUpdateTime, effectiveNow), farmStart)`:
the code additionally clamps the accrual window to start no earlier than the
farm start time read from component state (truncated subtraction gives an
empty window its value `0`); the result is never below `alreadyAccrued`, hence
non-negative. -/
theorem calculateEstimatedRewards_clamped_formula (s r lu e b n fs : Nat) (hs : s ≠ 0) :
    calculateEstimatedRewards s r lu e b n fs
      = b + s * r * (min n e - max (min lu (min n e)) fs) / WeiPerEther ∧
    b ≤ calculateEstimatedRewards s r lu e b n fs :=
  ⟨calculateEstimatedRewards_eq s r lu e b n fs hs,
   calculateEstimatedRewards_base_le s r lu e b n fs⟩

theorem calculateEstimatedRewards_clamped_formula_witness :
    calculateEstimatedRewards (10 ^ 18) 1 10 100 0 20 15
      = 0 + 10 ^ 18 * 1 * (min 20 100 - max (min 10 (min 20 100)) 15) / WeiPerEther ∧
    0 ≤ calculateEstimatedRewards (10 ^ 18) 1 10 100 0 20 15 :=
  calculateEstimatedRewards_clamped_formula (10 ^ 18) 1 10 100 0 20 15 (by decide)

/-- C1 counterexample: with `lastUpdateTime = 10` below the component's farm
start time `15`, the code accrues only over `[15, 20]` and returns `5`, while
the claimed six-input formula (window `[10, 20]`) gives `10`. -/
theorem calculateEstimatedRewards_backdate_counterexample :
    calculateEstimatedRewards (10 ^ 18) 1 10 100 0 20 15
      ≠ 0 + 10 ^ 18 * 1 * (min 20 100 - min 10 (min 20 100)) / WeiPerEther := by
  decide

/-- C2 (corrected, amended): when `SCALE` divides `s * r` the reward accrued
between `t0` and `t1 ≤ endTime` is exactly `s * r * (t1 - t0) / SCALE`, no
matter how many ordered intermediate no-op refresh points split the interval;
without that divisibility each split point can lose one unit to floor
rounding (see the counterexample). -/
theorem accrual_path_independent (k s r e t0 t1 b : Nat) (ms : List Nat)
    (hk : s * r = k * WeiPerEther)
    (hch : List.Chain (fun a c => a ≤ c) t0 (ms ++ [t1]))
    (hms : ∀ m ∈ ms, m ≤ t1) (ht1 : t1 ≤ e) :
    accrueAlong s r e 0 t0 b (ms ++ [t1]) = b + s * r * (t1 - t0) / WeiPerEther := by
  rw [hk, show k * WeiPerEther * (t1 - t0) = k * (t1 - t0) * WeiPerEther by ring,
    Nat.mul_div_cancel _ weiPerEther_pos]
  exact accrueAlong_exact k s r e hk ms t1 t0 b hch hms ht1

theorem accrual_path_independent_witness :
    accrueAlong 2 (10 ^ 18) 50 0 0 10 ([20, 30] ++ [40])
      = 10 + 2 * 10 ^ 18 * (40 - 0) / WeiPerEther :=
  accrual_path_independent 2 2 (10 ^ 18) 50 0 40 10 [20, 30] (by norm_num [WeiPerEther])
    (by simp) (by intro m hm; simp at hm; omega) (by omega)

/-- C2 counterexample: with `s * r = 1.5 * SCALE` (stake `3`, rate `5e17`),
splitting the interval `[0, 2]` at time `1` yields `1 + 1 = 2`, while the
one-shot computation over `[0, 2]` yields `3`: the accrual is not unchanged
under intermediate no-op refreshes. -/
theorem accrueAlong_split_counterexample :
    accrueAlong 3 (5 * 10 ^ 17) 2 0 0 0 [1, 2]
      ≠ 0 + 3 * (5 * 10 ^ 17) * (2 - 0) / WeiPerEther := by
  decide

/-- C8 (corrected, amended): the projector is a deterministic pure function of
seven inputs — the six spec-listed values plus the farm start time read from
component state; two invocations agreeing on all seven return the same value. -/
theorem calculateEstimatedRewards_deterministic (s r lu e b n fs fs' : Nat)
    (hfs : fs = fs') :
    calculateEstimatedRewards s r lu e b n fs
      = calculateEstimatedRewards s r lu e b n fs' := by
  rw [hfs]

theorem calculateEstimatedRewards_deterministic_witness :
    calculateEstimatedRewards 1 1 0 10 0 5 3 = calculateEstimatedRewards 1 1 0 10 0 5 3 :=
  calculateEstimatedRewards_deterministic 1 1 0 10 0 5 3 3 rfl

/-- C8 counterexample: two invocations with identical six spec-listed inputs
but different component farm start times (`0` vs `15`) return `10` vs `5` —
the result depends on state beyond the six claimed inputs. -/
theorem calculateEstimatedRewards_seventh_input_counterexample :
    ¬ (calculateEstimatedRewards (10 ^ 18) 1 10 100 0 20 0
        = calculateEstimatedRewards (10 ^ 18) 1 10 100 0 20 15) := by
  decide

/-- Full characterization of a successful `deployFarm` call. -/
lemma deployFarm_ok_spec (st : Factory) (caller msgValue farmType : Nat) (uri : String)
    (freshAddr : Nat) (initOk : Bool) (st' : Factory) (farm paid : Nat)
    (h : deployFarm st caller msgValue farmType uri freshAddr initOk
          = .ok (st', farm, paid)) :
    farm = freshAddr ∧
    paid = (if 0 < st.deploymentFee ∧ st.feeReceiver ≠ 0 then st.deploymentFee else 0) ∧
    st'.owner = st.owner ∧
    st'.deploymentFee = st.deploymentFee ∧
    st'.feeReceiver = st.feeReceiver ∧
    st'.implementations = st.implementations ∧
    st'.deployedFarms = st.deployedFarms ++ [freshAddr] ∧
    st'.farmMetadataURI = (fun a => if a = freshAddr then uri else st.farmMetadataURI a) ∧
    st'.farmCreators = (fun a => if a = freshAddr then caller else st.farmCreators a) ∧
    st'.balance = st.balance + msgValue - paid ∧
    st.implementations farmType ≠ 0 ∧
    (0 < st.deploymentFee → st.deploymentFee ≤ msgValue) ∧
    initOk = true := by
  simp only [deployFarm] at h
  split at h
  · exact absurd h (by simp)
  · split at h
    · exact absurd h (by simp)
    · split at h
      · rename_i hImpl hFee hInit
        simp only [Except.ok.injEq, Prod.mk.injEq] at h
        obtain ⟨rfl, rfl, rfl⟩ := h
        exact ⟨rfl, rfl, rfl, rfl, rfl, rfl, rfl, rfl, rfl, rfl, hImpl, by omega, hInit⟩
      · exact absurd h (by simp)

/-- Full characterization of a successful `registerFarmType` call. -/
lemma registerFarmType_ok_spec (st : Factory) (caller farmType impl : Nat) (st₁ : Factory)
    (h : registerFarmType st caller farmType impl = .ok st₁) :
    caller = st.owner ∧ farmType ≠ 0 ∧ impl ≠ 0 ∧ st.implementations farmType = 0 ∧
    st₁.owner = st.owner ∧
    st₁.deploymentFee = st.deploymentFee ∧
    st₁.feeReceiver = st.feeReceiver ∧
    st₁.deployedFarms = st.deployedFarms ∧
    st₁.farmMetadataURI = st.farmMetadataURI ∧
    st₁.farmCreators = st.farmCreators ∧
    st₁.balance = st.balance ∧
    st₁.implementations
      = (fun t => if t = farmType then impl else st.implementations t) := by
  simp only [registerFarmType] at h
  split at h
  · exact absurd h (by simp)
  · split at h
    · exact absurd h (by simp)
    · split at h
      · exact absurd h (by simp)
      · split at h
        · exact absurd h (by simp)
        · rename_i hOwner hType hImpl hReg
          simp only [Except.ok.injEq] at h
          subst h
          refine ⟨by omega, hType, hImpl, by omega, rfl, rfl, rfl, rfl, rfl, rfl, rfl, rfl⟩

/-- C3: `deployFarm` fails with `UnregisteredType` when the type has no
implementation; with a configured nonzero fee it fails with `InsufficientFee`
on underpayment; past the fee check it fails with `InitializationFailed` when
the forwarded initializer call does not succeed; on success the amount
forwarded to the receiver is the configured fee (zero when no receiver is
set). Each failure is an `Except.error`, which in this embedding carries no
successor state: the registry state is unchanged on every failure. -/
theorem deployFarm_error_cases (st : Factory) (caller msgValue farmType : Nat)
    (uri : String) (freshAddr : Nat) (initOk : Bool) :
    (st.implementations farmType = 0 →
      deployFarm st caller msgValue farmType uri freshAddr initOk
        = .error .unregisteredFarmType) ∧
    (st.implementations farmType ≠ 0 → 0 < st.deploymentFee →
      msgValue < st.deploymentFee →
      deployFarm st caller msgValue farmType uri freshAddr initOk
        = .error .insufficientFee) ∧
    (st.implementations farmType ≠ 0 →
      (0 < st.deploymentFee → st.deploymentFee ≤ msgValue) → initOk = false →
      deployFarm st caller msgValue farmType uri freshAddr initOk
        = .error .initializationFailed) ∧
    (∀ st' farm paid,
      deployFarm st caller msgValue farmType uri freshAddr initOk = .ok (st', farm, paid) →
      paid = if 0 < st.deploymentFee ∧ st.feeReceiver ≠ 0 then st.deploymentFee else 0) := by
  refine ⟨?_, ?_, ?_, ?_⟩
  · intro h
    simp [deployFarm, h]
  · intro h1 h2 h3
    unfold deployFarm
    rw [if_neg h1, if_pos ⟨h2, h3⟩]
  · intro h1 h2 h3
    unfold deployFarm
    rw [if_neg h1, if_neg (by omega)]
    simp [h3]
  · intro st' farm paid h
    exact (deployFarm_ok_spec st caller msgValue farmType uri freshAddr initOk
      st' farm paid h).2.1

theorem deployFarm_error_cases_witness :
    deployFarm exSt 2 3 1 "u" 50 true = .error .insufficientFee :=
  (deployFarm_error_cases exSt 2 3 1 "u" 50 true).2.1 (by decide) (by decide) (by decide)

/-- C9: with a nonzero configured fee and sufficient payment, `deployFarm`
forwards exactly `deploymentFee` (never the full payment) to a non-null
`feeReceiver` and forwards nothing when the receiver is the null address; the
deployment then proceeds (succeeding whenever the initializer call succeeds),
and the factory retains `msgValue - paid`, so any excess above the fee stays
with the registry instead of being refunded. -/
theorem deployFarm_fee_transfer (st : Factory) (caller msgValue farmType : Nat)
    (uri : String) (freshAddr : Nat) (initOk : Bool)
    (himpl : st.implementations farmType ≠ 0)
    (hfee : 0 < st.deploymentFee) (hval : st.deploymentFee ≤ msgValue) :
    (initOk = true → ∃ st' farm paid,
      deployFarm st caller msgValue farmType uri freshAddr initOk
        = .ok (st', farm, paid) ∧
      paid = (if st.feeReceiver ≠ 0 then st.deploymentFee else 0) ∧
      st'.balance = st.balance + msgValue - paid) ∧
    (initOk = false →
      deployFarm st caller msgValue farmType uri freshAddr initOk
        = .error .initializationFailed) := by
  constructor
  · intro h
    subst h
    obtain ⟨⟨st', farm, paid⟩, hd⟩ :
        ∃ x, deployFarm st caller msgValue farmType uri freshAddr true = .ok x := by
      unfold deployFarm
      rw [if_neg himpl, if_neg (by omega)]
      exact ⟨_, rfl⟩
    obtain ⟨_, hpaid, _, _, _, _, _, _, _, hbal, _⟩ :=
      deployFarm_ok_spec st caller msgValue farmType uri freshAddr true st' farm paid hd
    refine ⟨st', farm, paid, hd, ?_, hbal⟩
    rw [hpaid]
    by_cases hr : st.feeReceiver = 0 <;> simp [hr, hfee]
  · intro h
    subst h
    unfold deployFarm
    rw [if_neg himpl, if_neg (by omega)]
    simp

theorem deployFarm_fee_transfer_witness :
    ∃ st' farm paid,
      deployFarm exSt 2 7 1 "u" 50 true = .ok (st', farm, paid) ∧
      paid = (if exSt.feeReceiver ≠ 0 then exSt.deploymentFee else 0) ∧
      st'.balance = exSt.balance + 7 - paid :=
  (deployFarm_fee_transfer exSt 2 7 1 "u" 50 true (by decide) (by decide) (by decide)).1 rfl

/-- C4 (corrected): with the operator calling, `registerFarmType` reports
`InvalidArgument` (`invalidType` / `zeroAddress`) for a zero type identifier
or null implementation, and reports `AlreadyRegistered` for an occupied type
only when both arguments are valid — argument validation precedes the
`AlreadyRegistered` check. After a successful registration the mapping holds
the first implementation and any repeat registration of the same type fails
(with `AlreadyRegistered` whenever the new implementation is non-null),
leaving the mapping pointing at the first implementation. -/
theorem registerFarmType_checks (st : Factory) (caller farmType impl : Nat)
    (hc : caller = st.owner) :
    (farmType = 0 → registerFarmType st caller farmType impl = .error .invalidType) ∧
    (farmType ≠ 0 → impl = 0 →
      registerFarmType st caller farmType impl = .error .zeroAddress) ∧
    (farmType ≠ 0 → impl ≠ 0 → st.implementations farmType ≠ 0 →
      registerFarmType st caller farmType impl = .error .alreadyRegistered) ∧
    (∀ st₁, registerFarmType st caller farmType impl = .ok st₁ →
      st₁.implementations farmType = impl ∧
      ∀ caller₂ impl₂, caller₂ = st₁.owner →
        (impl₂ = 0 → registerFarmType st₁ caller₂ farmType impl₂ = .error .zeroAddress) ∧
        (impl₂ ≠ 0 →
          registerFarmType st₁ caller₂ farmType impl₂ = .error .alreadyRegistered)) := by
  have hcc : ¬(caller ≠ st.owner) := fun hne => hne hc
  refine ⟨?_, ?_, ?_, ?_⟩
  · intro h0
    unfold registerFarmType
    rw [if_neg hcc, if_pos h0]
  · intro h0 hi
    unfold registerFarmType
    rw [if_neg hcc, if_neg h0, if_pos hi]
  · intro h0 hi hr
    unfold registerFarmType
    rw [if_neg hcc, if_neg h0, if_neg (fun h => hi h), if_pos hr]
  · intro st₁ h
    obtain ⟨_, hType, _, _, hOwn, _, _, _, _, _, _, hImpls⟩ :=
      registerFarmType_ok_spec st caller farmType impl st₁ h
    have hAt : st₁.implementations farmType = impl := by
      rw [hImpls]
      simp
    refine ⟨hAt, ?_⟩
    intro caller₂ impl₂ hc₂
    have hcc₂ : ¬(caller₂ ≠ st₁.owner) := fun hne => hne hc₂
    constructor
    · intro hi₂
      unfold registerFarmType
      rw [if_neg hcc₂, if_neg hType, if_pos hi₂]
    · intro hi₂
      unfold registerFarmType
      rw [if_neg hcc₂, if_neg hType, if_neg (fun h => hi₂ h),
        if_pos (show st₁.implementations farmType ≠ 0 by
          rw [hAt]
          exact (registerFarmType_ok_spec st caller farmType impl st₁ h).2.2.1)]

theorem registerFarmType_checks_witness :
    registerFarmType exSt 1 2 0 = .error .zeroAddress :=
  (registerFarmType_checks exSt 1 2 0 rfl).2.1 (by decide) rfl

/-- C4 counterexample: in `exSt` type `1` already maps to the non-null
implementation `7`, yet registering `(1, 0)` as the owner reverts with the
`Zero address` argument check, not with `AlreadyRegistered`. -/
theorem registerFarmType_precedence_counterexample :
    exSt.implementations 1 ≠ 0 ∧
    registerFarmType exSt 1 1 0 ≠ .error .alreadyRegistered := by
  constructor
  · decide
  · intro hcontra
    have hz : registerFarmType exSt 1 1 0 = .error .zeroAddress := rfl
    rw [hz] at hcontra
    exact absurd (Except.error.inj hcontra) (by decide)

/-- C7: every successful `deployFarm` call appends exactly the returned farm
address at the end of the deployed-instances list, records its creator and
metadata URI, and — since a fresh clone address is distinct from every
previously deployed instance — leaves every previously recorded list entry,
creator and metadata URI unchanged. -/
theorem deployFarm_append_only (st : Factory) (caller msgValue farmType : Nat)
    (uri : String) (freshAddr : Nat) (initOk : Bool) (st' : Factory) (farm paid : Nat)
    (hfresh : freshAddr ∉ st.deployedFarms)
    (h : deployFarm st caller msgValue farmType uri freshAddr initOk
          = .ok (st', farm, paid)) :
    st'.deployedFarms = st.deployedFarms ++ [farm] ∧
    st'.farmCreators farm = caller ∧
    st'.farmMetadataURI farm = uri ∧
    (∀ a ∈ st.deployedFarms,
      st'.farmCreators a = st.farmCreators a ∧
      st'.farmMetadataURI a = st.farmMetadataURI a) ∧
    (∀ i, i < st.deployedFarms.length →
      st'.deployedFarms.getD i 0 = st.deployedFarms.getD i 0) := by
  obtain ⟨hfarm, _, _, _, _, _, hDF, hMU, hFC, _, _, _, _⟩ :=
    deployFarm_ok_spec st caller msgValue farmType uri freshAddr initOk st' farm paid h
  subst hfarm
  refine ⟨hDF, ?_, ?_, ?_, ?_⟩
  · rw [hFC]
    simp
  · rw [hMU]
    simp
  · intro a ha
    have hne : a ≠ farm := fun hEq => hfresh (hEq ▸ ha)
    rw [hFC, hMU]
    simp [hne]
  · intro i hi
    rw [hDF]
    exact List.getD_append st.deployedFarms [farm] 0 i hi

theorem deployFarm_append_only_witness :
    ∃ st' farm paid,
      deployFarm exSt6 2 7 1 "u" 50 true = .ok (st', farm, paid) ∧
      st'.deployedFarms = exSt6.deployedFarms ++ [farm] := by
  obtain ⟨⟨st', farm, paid⟩, hd⟩ :
      ∃ x, deployFarm exSt6 2 7 1 "u" 50 true = .ok x := ⟨_, rfl⟩
  exact ⟨st', farm, paid, hd,
    (deployFarm_append_only exSt6 2 7 1 "u" 50 true st' farm paid (by decide) hd).1⟩

/-- C6: `getDeployedFarms` returns the contiguous slice of the deployed list
starting at `offset`: empty when `offset` is at or beyond the list length, and
otherwise exactly the entries at indices `offset .. min(offset+limit, length) - 1`
(the limit clamped to the remaining length). As a `view` it takes the state and
returns a fresh list, mutating nothing. -/
theorem getDeployedFarms_slice (st : Factory) (offset limit : Nat) :
    (st.deployedFarms.length ≤ offset → getDeployedFarms st offset limit = []) ∧
    (offset < st.deployedFarms.length →
      (getDeployedFarms st offset limit).length
        = min (offset + limit) st.deployedFarms.length - offset ∧
      ∀ j, j < (getDeployedFarms st offset limit).length →
        (getDeployedFarms st offset limit).getD j 0
          = st.deployedFarms.getD (offset + j) 0) := by
  constructor
  · intro h
    unfold getDeployedFarms
    rw [if_pos h]
  · intro h
    have hneg : ¬(st.deployedFarms.length ≤ offset) := by omega
    have hlen : (getDeployedFarms st offset limit).length
        = min (offset + limit) st.deployedFarms.length - offset := by
      unfold getDeployedFarms
      rw [if_neg hneg]
      simp only [List.length_map, List.length_range']
      split <;> omega
    refine ⟨hlen, ?_⟩
    intro j hj
    have hj' : j < min (offset + limit) st.deployedFarms.length - offset := by
      rw [← hlen]
      exact hj
    rw [List.getD_eq_getElem _ _ hj]
    unfold getDeployedFarms
    simp only [if_neg hneg, List.getElem_map, List.getElem_range'_1]

theorem getDeployedFarms_slice_witness :
    (getDeployedFarms exSt6 1 5).length = min (1 + 5) exSt6.deployedFarms.length - 1 :=
  ((getDeployedFarms_slice exSt6 1 5).2 (by decide)).1

/-- C5: a successful `initialize` implies the instance was uninitialized and
every validation passed (owner non-null; the spec-modelled asset checks:
identifiers non-null and distinct; duration positive; boost at least 100); it
sets the schedule fields from the call time (`lastAccrualTime = startTime = now`,
`endTime = now + duration`) and irreversibly flips the one-shot guard, so any
second call — with any arguments, at any time — fails with `AlreadyInitialized`
(an `Except.error`, leaving every field as the first call set it). -/
theorem initializeFarm_one_shot (f f' : Farm) (now o s r d l b : Nat)
    (h : initializeFarm f now o s r d l b = .ok f') :
    f.initializedFlag = false ∧
    o ≠ 0 ∧ s ≠ 0 ∧ r ≠ 0 ∧ s ≠ r ∧ 0 < d ∧ 100 ≤ b ∧
    f'.initializedFlag = true ∧
    f'.owner = o ∧ f'.stakeToken = s ∧ f'.rewardToken = r ∧
    f'.duration = d ∧ f'.lockDurationSeconds = l ∧ f'.boostMultiplier = b ∧
    f'.lastUpdate = now ∧ f'.endTimestamp = now + d ∧
    (∀ now₂ o₂ s₂ r₂ d₂ l₂ b₂,
      initializeFarm f' now₂ o₂ s₂ r₂ d₂ l₂ b₂ = .error .alreadyInitialized) := by
  by_cases h1 : f.initializedFlag
  · simp [initializeFarm, h1] at h
  · by_cases h2 : o = 0
    · simp [initializeFarm, h1, h2] at h
    · by_cases h3 : s = 0 ∨ r = 0
      · simp [initializeFarm, assetChecks, h1, h2, h3] at h
      · by_cases h4 : s = r
        · have hr : r ≠ 0 := fun h0 => h3 (Or.inr h0)
          simp [initializeFarm, assetChecks, h1, h2, h3, h4, hr] at h
        · by_cases h5 : d = 0
          · simp [initializeFarm, assetChecks, h1, h2, h3, h4, h5] at h
          · by_cases h6 : b < 100
            · simp [initializeFarm, assetChecks, h1, h2, h3, h4, h5, h6] at h
            · have hrec : initializeFarm f now o s r d l b = .ok
                  { initializedFlag := true
                    owner := o
                    stakeToken := s
                    rewardToken := r
                    duration := d
                    lockDurationSeconds := l
                    boostMultiplier := b
                    lastUpdate := now
                    endTimestamp := now + d } := by
                simp [initializeFarm, assetChecks, h1, h2, h3, h4, h5, h6]
              rw [hrec] at h
              have hf' := Except.ok.inj h
              subst hf'
              refine ⟨by simpa using h1, h2, fun hs => h3 (Or.inl hs),
                fun hr => h3 (Or.inr hr), h4, by omega, by omega,
                rfl, rfl, rfl, rfl, rfl, rfl, rfl, rfl, rfl, ?_⟩
              intro now₂ o₂ s₂ r₂ d₂ l₂ b₂
              simp [initializeFarm]

theorem initializeFarm_one_shot_witness :
    initializeFarm exFarm 2000 9 8 7 100 0 100 = .error .alreadyInitialized := by
  have h := initializeFarm_one_shot Farm.blank exFarm 1000 1 2 3 600 0 150 (by rfl)
  exact h.2.2.2.2.2.2.2.2.2.2.2.2.2.2.2.2 2000 9 8 7 100 0 100

/-- Characterization of a successful `setDeploymentFee` call. -/
lemma setDeploymentFee_ok_spec (st : Factory) (caller fee receiver : Nat) (st₁ : Factory)
    (h : setDeploymentFee st caller fee receiver = .ok st₁) :
    st₁ = { st with deploymentFee := fee, feeReceiver := receiver } := by
  simp only [setDeploymentFee] at h
  split at h
  · exact absurd h (by simp)
  · exact (Except.ok.inj h).symm

/-- A step never invents provenance: addresses outside the deployed list keep
zero creator and empty metadata URI. -/
lemma applyEv_lookup_inv (st : Factory) (e : Ev)
    (hInv : ∀ a, a ∉ st.deployedFarms →
      st.farmCreators a = 0 ∧ st.farmMetadataURI a = "") :
    ∀ a, a ∉ (applyEv st e).deployedFarms →
      (applyEv st e).farmCreators a = 0 ∧ (applyEv st e).farmMetadataURI a = "" := by
  intro a ha
  cases e with
  | register c t i =>
    cases hE : registerFarmType st c t i with
    | ok st₁ =>
      have hA : applyEv st (.register c t i) = st₁ := by
        simp only [applyEv]
        rw [hE]
      obtain ⟨_, _, _, _, _, _, _, hDF, hMU, hFC, _, _⟩ :=
        registerFarmType_ok_spec st c t i st₁ hE
      rw [hA] at ha ⊢
      rw [hDF] at ha
      rw [hFC, hMU]
      exact hInv a ha
    | error er =>
      have hA : applyEv st (.register c t i) = st := by
        simp only [applyEv]
        rw [hE]
      rw [hA] at ha ⊢
      exact hInv a ha
  | setFee c fee recv =>
    cases hE : setDeploymentFee st c fee recv with
    | ok st₁ =>
      have hA : applyEv st (.setFee c fee recv) = st₁ := by
        simp only [applyEv]
        rw [hE]
      have hS := setDeploymentFee_ok_spec st c fee recv st₁ hE
      rw [hA, hS] at ha ⊢
      exact hInv a ha
    | error er =>
      have hA : applyEv st (.setFee c fee recv) = st := by
        simp only [applyEv]
        rw [hE]
      rw [hA] at ha ⊢
      exact hInv a ha
  | deploy c v t u fa ok =>
    cases hE : deployFarm st c v t u fa ok with
    | ok res =>
      obtain ⟨st₁, farm, paid⟩ := res
      have hA : applyEv st (.deploy c v t u fa ok) = st₁ := by
        simp only [applyEv]
        rw [hE]
      obtain ⟨_, _, _, _, _, _, hDF, hMU, hFC, _, _, _, _⟩ :=
        deployFarm_ok_spec st c v t u fa ok st₁ farm paid hE
      rw [hA] at ha ⊢
      rw [hDF] at ha
      have hnotold : a ∉ st.deployedFarms := fun hmem =>
        ha (List.mem_append_left _ hmem)
      have hnotnew : a ≠ fa := fun hEq =>
        ha (List.mem_append_right _ (hEq ▸ List.mem_cons_self a []))
      rw [hFC, hMU]
      simp only [if_neg hnotnew]
      exact hInv a hnotold
    | error er =>
      have hA : applyEv st (.deploy c v t u fa ok) = st := by
        simp only [applyEv]
        rw [hE]
      rw [hA] at ha ⊢
      exact hInv a ha

/-- A step that is not a registration of type `t` leaves `implementations t`
unchanged. -/
lemma applyEv_implementations_stable (st : Factory) (e : Ev) (t : Nat)
    (hne : ∀ c i, e ≠ Ev.register c t i) :
    (applyEv st e).implementations t = st.implementations t := by
  cases e with
  | register c t' i =>
    cases hE : registerFarmType st c t' i with
    | ok st₁ =>
      have hA : applyEv st (.register c t' i) = st₁ := by
        simp only [applyEv]
        rw [hE]
      obtain ⟨_, _, _, _, _, _, _, _, _, _, _, hImpls⟩ :=
        registerFarmType_ok_spec st c t' i st₁ hE
      have htt : t ≠ t' := fun hEq => hne c i (by rw [hEq])
      rw [hA, hImpls]
      simp [htt]
    | error er =>
      have hA : applyEv st (.register c t' i) = st := by
        simp only [applyEv]
        rw [hE]
      rw [hA]
  | setFee c fee recv =>
    cases hE : setDeploymentFee st c fee recv with
    | ok st₁ =>
      have hA : applyEv st (.setFee c fee recv) = st₁ := by
        simp only [applyEv]
        rw [hE]
      rw [hA, setDeploymentFee_ok_spec st c fee recv st₁ hE]
    | error er =>
      have hA : applyEv st (.setFee c fee recv) = st := by
        simp only [applyEv]
        rw [hE]
      rw [hA]
  | deploy c v t' u fa ok =>
    cases hE : deployFarm st c v t' u fa ok with
    | ok res =>
      obtain ⟨st₁, farm, paid⟩ := res
      have hA : applyEv st (.deploy c v t' u fa ok) = st₁ := by
        simp only [applyEv]
        rw [hE]
      obtain ⟨_, _, _, _, _, hImpls, _, _, _, _, _, _, _⟩ :=
        deployFarm_ok_spec st c v t' u fa ok st₁ farm paid hE
      rw [hA, hImpls]
    | error er =>
      have hA : applyEv st (.deploy c v t' u fa ok) = st := by
        simp only [applyEv]
        rw [hE]
      rw [hA]

/-- Provenance invariant along any trace from the fresh factory. -/
lemma run_lookup_inv (deployer : Nat) (tr : List Ev) :
    ∀ a, a ∉ (run deployer tr).deployedFarms →
      (run deployer tr).farmCreators a = 0 ∧ (run deployer tr).farmMetadataURI a = "" := by
  have hGen : ∀ (l : List Ev) (st : Factory),
      (∀ a, a ∉ st.deployedFarms → st.farmCreators a = 0 ∧ st.farmMetadataURI a = "") →
      ∀ a, a ∉ (l.foldl applyEv st).deployedFarms →
        (l.foldl applyEv st).farmCreators a = 0 ∧
        (l.foldl applyEv st).farmMetadataURI a = "" := by
    intro l
    induction l with
    | nil =>
      intro st hInv a ha
      exact hInv a ha
    | cons e l ih =>
      intro st hInv a ha
      exact ih (applyEv st e) (applyEv_lookup_inv st e hInv) a ha
  exact hGen tr (Factory.initial deployer) (fun a _ => ⟨rfl, rfl⟩)

/-- A type never registered along the trace keeps a null implementation. -/
lemma run_implementations_zero (deployer : Nat) (tr : List Ev) (t : Nat)
    (h : ∀ c i, Ev.register c t i ∉ tr) :
    (run deployer tr).implementations t = 0 := by
  have hGen : ∀ (l : List Ev) (st : Factory), (∀ c i, Ev.register c t i ∉ l) →
      (l.foldl applyEv st).implementations t = st.implementations t := by
    intro l
    induction l with
    | nil =>
      intro st _
      rfl
    | cons e l ih =>
      intro st hmem
      have h1 : ∀ c i, e ≠ Ev.register c t i := fun c i hEq =>
        hmem c i (by rw [← hEq]; exact List.mem_cons_self e l)
      have h2 : ∀ c i, Ev.register c t i ∉ l := fun c i hm =>
        hmem c i (List.mem_cons_of_mem e hm)
      show (l.foldl applyEv (applyEv st e)).implementations t = st.implementations t
      rw [ih (applyEv st e) h2, applyEv_implementations_stable st e t h1]
  rw [run, hGen tr _ h]
  rfl

/-- C10: the registry's read-only lookups are total and never fail on unknown
keys — along every trace of calls from the fresh factory, an address never
produced by a successful deployment has `getFarmCreator = 0` (null address)
and `getMetadataURI = ""`, and a type identifier never passed to a
registration call has `isRegisteredFarmType = false`. -/
theorem factory_lookups_total (deployer : Nat) (tr : List Ev) (a t : Nat) :
    (a ∉ (run deployer tr).deployedFarms →
      getFarmCreator (run deployer tr) a = 0 ∧ getMetadataURI (run deployer tr) a = "") ∧
    ((∀ c i, Ev.register c t i ∉ tr) →
      isRegisteredFarmType (run deployer tr) t = false) := by
  constructor
  · intro ha
    exact run_lookup_inv deployer tr a ha
  · intro h
    unfold isRegisteredFarmType
    rw [run_implementations_zero deployer tr t h]
    simp

theorem factory_lookups_total_witness :
    getFarmCreator (run 5 exTrace) 99 = 0 ∧
    isRegisteredFarmType (run 5 exTrace) 2 = false := by
  have h := factory_lookups_total 5 exTrace 99 2
  refine ⟨(h.1 ?_).1, h.2 ?_⟩
  · decide
  · intro c i hm
    simp [exTrace] at hm
